import Mathlib

/-!
Shallow embedding of the go-smbios library (entry-point discovery and
parsing, the SMBIOS structure-stream decoder, and the per-type structure
interpreter) together with theorems settling the frozen claims about it.

Bytes are modelled as natural numbers (values kept below 256 by explicit
`% 256` where Go's uint8 arithmetic wraps); byte streams and Go strings
are `List Nat`; fallible Go functions return `Except String`.
-/

deriving instance DecidableEq for Except

namespace SMBIOS

/-- A byte value; the embedding keeps values in `[0, 256)`. -/
abbrev Byte := Nat

/-- `slice b i j` models the Go slice expression `b[i:j]`. -/
def slice (b : List Byte) (i j : Nat) : List Byte :=
  (b.drop i).take (j - i)

/-- `binary.LittleEndian.Uint16(b[i:i+2])` -/
def le16 (b : List Byte) (i : Nat) : Nat :=
  b.getD i 0 + 256 * b.getD (i + 1) 0

/-- `binary.LittleEndian.Uint32(b[i:i+4])` -/
def le32 (b : List Byte) (i : Nat) : Nat :=
  b.getD i 0 + 256 * b.getD (i + 1) 0 + 65536 * b.getD (i + 2) 0 + 16777216 * b.getD (i + 3) 0

/-- `binary.LittleEndian.Uint64(b[i:i+8])` -/
def le64 (b : List Byte) (i : Nat) : Nat :=
  le32 b i + 4294967296 * le32 b (i + 4)

/-- Anchor string `_SM_` (entrypoint.go `magic32`). -/
def magic32 : List Byte := [0x5F, 0x53, 0x4D, 0x5F]

/-- Anchor string `_SM3_` (entrypoint.go `magic64`). -/
def magic64 : List Byte := [0x5F, 0x53, 0x4D, 0x33, 0x5F]

/-- Anchor string `_DMI_` (entrypoint.go `magicDMI`). -/
def magicDMI : List Byte := [0x5F, 0x44, 0x4D, 0x49, 0x5F]

/-!
## Entry-point checksum (entrypoint.go `checksum`)

The Go loop `for i := range b { if i == chkIndex { continue }; chk += b[i] }`
is translated positionally: `chkGo b k chk` walks `b`, skipping the element
at relative position `k`, accumulating with wrap-around `% 256`
(Go uint8 addition).
-/

/-- Accumulate every remaining byte into `chk` with uint8 wrap-around. -/
def addAll : List Byte → Nat → Nat
  | [], chk => chk
  | x :: xs, chk => addAll xs ((chk + x) % 256)

/-- Walk `b`, skipping the byte at relative position `k`, accumulating the
rest into `chk` with uint8 wrap-around: the loop body of entrypoint.go
`checksum`. -/
def chkGo : List Byte → Nat → Nat → Nat
  | [], _, chk => chk
  | _ :: xs, 0, chk => addAll xs chk
  | x :: xs, k + 1, chk => chkGo xs k ((chk + x) % 256)

/-- entrypoint.go `checksum(start, chkIndex, b)`: fails unless the
accumulated uint8 sum is zero. -/
def checksum (start : Byte) (chkIndex : Nat) (b : List Byte) : Except String Unit :=
  if chkGo b chkIndex start = 0 then .ok () else .error "invalid entry point checksum"

/-- entrypoint.go `EntryPoint32Bit`. -/
structure EntryPoint32Bit where
  anchor : List Byte
  chk : Byte
  length : Byte
  major : Byte
  minor : Byte
  maxStructureSize : Nat
  entryPointRevision : Byte
  formattedArea : List Byte
  intermediateAnchor : List Byte
  intermediateChecksum : Byte
  structureTableLength : Nat
  structureTableAddress : Nat
  numberStructures : Nat
  bcdRevision : Byte
deriving DecidableEq

/-- entrypoint.go `EntryPoint64Bit`. -/
structure EntryPoint64Bit where
  anchor : List Byte
  chk : Byte
  length : Byte
  major : Byte
  minor : Byte
  revision : Byte
  entryPointRevision : Byte
  reserved : Byte
  structureTableMaxSize : Nat
  structureTableAddress : Nat
deriving DecidableEq

/-- entrypoint.go `parse32`. -/
def parse32 (b : List Byte) : Except String EntryPoint32Bit :=
  if b.length < 31 then
    .error "expected SMBIOS 32-bit entry point length of at least 31"
  else if b.length ≠ b.getD 5 0 then
    .error "expected SMBIOS 32-bit entry point length mismatch"
  else if slice b 16 21 ≠ magicDMI then
    .error "incorrect DMI magic in SMBIOS 32-bit entry point"
  else
    match checksum (b.getD 4 0) 4 b with
    | .error e => .error e
    | .ok _ =>
      .ok { anchor := slice b 0 4
            chk := b.getD 4 0
            length := b.getD 5 0
            major := b.getD 6 0
            minor := b.getD 7 0
            maxStructureSize := le16 b 8
            entryPointRevision := b.getD 10 0
            formattedArea := slice b 10 15
            intermediateAnchor := slice b 16 21
            intermediateChecksum := b.getD 21 0
            structureTableLength := le16 b 22
            structureTableAddress := le32 b 24
            numberStructures := le16 b 28
            bcdRevision := b.getD 30 0 }

/-- entrypoint.go `parse64`. -/
def parse64 (b : List Byte) : Except String EntryPoint64Bit :=
  if b.length < 24 then
    .error "expected SMBIOS 64-bit entry point length of at least 24"
  else if b.length ≠ b.getD 6 0 then
    .error "expected SMBIOS 64-bit entry point length mismatch"
  else
    match checksum (b.getD 5 0) 5 b with
    | .error e => .error e
    | .ok _ =>
      .ok { anchor := slice b 0 5
            chk := b.getD 5 0
            length := b.getD 6 0
            major := b.getD 7 0
            minor := b.getD 8 0
            revision := b.getD 9 0
            entryPointRevision := b.getD 10 0
            reserved := b.getD 11 0
            structureTableMaxSize := le32 b 12
            structureTableAddress := le64 b 16 }

/-!
## Record framer (decoder.go `parseHeader`, `parseFormatted`, `parseStrings`)
-/

/-- `io.ReadFull` over the buffered stream: take exactly `n` bytes or fail. -/
def readFull (n : Nat) (s : List Byte) : Except String (List Byte × List Byte) :=
  if n ≤ s.length then .ok (s.take n, s.drop n) else .error "unexpected EOF"

/-- decoder.go `Header`. -/
structure Header where
  type : Byte
  length : Byte
  handle : Nat
deriving DecidableEq

/-- decoder.go `parseHeader`: 4 bytes, little-endian handle. -/
def parseHeader (s : List Byte) : Except String (Header × List Byte) :=
  match readFull 4 s with
  | .error e => .error e
  | .ok (b, rest) =>
    .ok ({ type := b.getD 0 0, length := b.getD 1 0, handle := le16 b 2 }, rest)

/-- decoder.go `parseFormatted` applied to `l = h.Length - 4` (int
arithmetic: negative `l` is rejected before any read). -/
def parseFormatted (hlen : Nat) (s : List Byte) : Except String (List Byte × List Byte) :=
  if hlen < 4 then .error "unexpected EOF"
  else readFull (hlen - 4) s

/-- `bufio.ReadBytes(0x00)`: the content before the first zero byte and the
remainder after it; fails when no zero byte occurs (the Go caller treats
the EOF-with-partial-data result as an error). -/
def readBytes0 : List Byte → Option (List Byte × List Byte)
  | [] => none
  | 0 :: rest => some ([], rest)
  | x :: rest => (readBytes0 rest).map (fun pr => (x :: pr.1, pr.2))

/-- decoder.go `parseString`: one null-terminated string, then peek one
byte; a second null ends the string set (and is discarded). -/
def parseString (s : List Byte) : Except String (List Byte × Bool × List Byte) :=
  match readBytes0 s with
  | none => .error "unexpected EOF"
  | some (str, rest) =>
    match rest with
    | [] => .error "unexpected EOF"
    | 0 :: rest2 => .ok (str, false, rest2)
    | _ :: _ => .ok (str, true, rest)

/-- The collection loop of decoder.go `parseStrings`; structural fuel
(each iteration consumes at least one byte, so `s.length + 1` never runs
out). -/
def parseStringsLoop : Nat → List Byte → List (List Byte) →
    Except String (List (List Byte) × List Byte)
  | 0, _, _ => .error "string fuel exhausted"
  | fuel + 1, s, acc =>
    match parseString s with
    | .error e => .error e
    | .ok (str, more, rest) =>
      if more then parseStringsLoop fuel rest (acc ++ [str])
      else .ok (acc ++ [str], rest)

/-- decoder.go `parseStrings`: peek two bytes; `[0, 0]` means an empty
string set (both bytes discarded); otherwise collect strings. -/
def parseStrings (s : List Byte) : Except String (List (List Byte) × List Byte) :=
  if s.length < 2 then .error "unexpected EOF"
  else if s.take 2 = [0, 0] then .ok ([], s.drop 2)
  else parseStringsLoop (s.length + 1) s []

/-!
## Typed projections (structure.go and the fork's inventory types)

The inventory containers (`SystemInfo` extensions, `BaseboardInfo`,
`Processor`, `PhysicalMemory`, `BIOSInfo`, `MemoryInfoRead`,
`SMBIOSVersion`, `SystemEnclosure`, `BIOSInfoRead`) are assigned in
decoder.go but declared in a file absent from the provided sources; their
fields are modelled from those assignments and from the spec. A field
never assigned by the interpreter is `none`, mirroring "absent".
-/

/-- Modelled from the spec: `SMBIOSVersion` (declared outside the provided
sources) carries the SMBIOS major and minor version used by the decoder. -/
structure SMBIOSVersion where
  major : Nat
  minor : Nat
deriving DecidableEq

structure BaseboardInfo where
  manufacturer : Option (List Byte) := none
  product : Option (List Byte) := none
  version : Option (List Byte) := none
  serialNumber : Option (List Byte) := none
deriving DecidableEq

structure Processor where
  id : Option (List Byte) := none
  family : Option Nat := none
  coreCount : Option Nat := none
  product : Option (List Byte) := none
  clockSpeedInMHz : Option Nat := none
deriving DecidableEq

structure PhysicalMemory where
  manufacturer : Option (List Byte) := none
  serialNumber : Option (List Byte) := none
  sizeInBytes : Nat := 0
  totalWidth : Option Nat := none
  dataWidth : Option Nat := none
deriving DecidableEq

structure BIOSInfo where
  vendor : Option (List Byte) := none
  version : Option (List Byte) := none
  biosVersion : Option (List Byte) := none
  releaseDate : Option (List Byte) := none
deriving DecidableEq

/-- decoder.go `MemoryInfoRead`: plain record filled field by field from
explicit little-endian slices of the formatted block (zero-initialized as
in Go). -/
structure MemoryInfoRead where
  memArrayHandle : Nat := 0
  memErrorInfoHandle : Nat := 0
  totalWidth : Nat := 0
  dataWidth : Nat := 0
  size : Nat := 0
  formFactor : Byte := 0
  deviceSet : Byte := 0
  deviceLocator : Byte := 0
  bankLocator : Byte := 0
  memType : Byte := 0
  typeDetail : Nat := 0
  speed : Nat := 0
  manufacturer : Byte := 0
  serialNumber : Byte := 0
  assetTag : Byte := 0
  partNumber : Byte := 0
  attrib : Byte := 0
  extendedSize : Nat := 0
  configuredMemClockSpeed : Nat := 0
  minVoltage : Nat := 0
  maxVoltage : Nat := 0
  configuredVoltage : Nat := 0
deriving DecidableEq

/-- The fork's `SystemInfo` aggregate populated by `Decoder.next`. -/
structure SystemInfo where
  systemManufacturerRef : Option (List Byte) := none
  systemProductName : Option (List Byte) := none
  biosSerial : Option (List Byte) := none
  virtualMachineUUID : Option (List Byte) := none
  motherboardAdapter : Option (List Byte) := none
  memory : Option (List Byte) := none
  processorType : Option (List Byte) := none
  processorID : Option (List Byte) := none
  baseboardInfo : Option BaseboardInfo := none
  systemEnclosureType : Option Byte := none
  processors : List Processor := []
  phyMemory : List PhysicalMemory := []
  biosInfo : Option BIOSInfo := none
deriving DecidableEq

/-!
## Unsafe reads, panics and rendering helpers
-/

/-- A byte read through the `unsafe.Pointer` struct casts of decoder.go.
A Go read beyond the end of the slice returns an unspecified adjacent heap
byte; the model reports such reads as a distinguished failure, and every
theorem about these projections is stated on inputs whose reads stay in
bounds. -/
def uread (fb : List Byte) (off : Nat) : Except String Byte :=
  match fb.get? off with
  | some b => .ok b
  | none => .error "unspecified out-of-bounds read"

/-- A 16-bit field read through an `unsafe.Pointer` struct cast
(little-endian, as on the supported platforms). -/
def uread16 (fb : List Byte) (off : Nat) : Except String Nat := do
  let lo ← uread fb off
  let hi ← uread fb (off + 1)
  return lo + 256 * hi

/-- Go `ss[i]` without a bounds check: a runtime panic when out of range. -/
def ssIndex (ss : List (List Byte)) (i : Nat) : Except String (List Byte) :=
  match ss.get? i with
  | some v => .ok v
  | none => .error "panic: index out of range"

/-- Go `&fb[0]` (the `unsafe.Pointer` casts): a runtime panic when the
formatted block is empty. -/
def castGuard (fb : List Byte) : Except String Unit :=
  if fb.isEmpty then .error "panic: index out of range" else .ok ()

/-- Go `fb[9]` with bounds checking: a runtime panic when out of range. -/
def fbIndex (fb : List Byte) (i : Nat) : Except String Byte :=
  match fb.get? i with
  | some b => .ok b
  | none => .error "panic: index out of range"

/-- Uppercase hexadecimal digit. -/
def hexDigit (n : Nat) : Byte := if n < 10 then 48 + n else 55 + n

/-- `%02X` of a byte. -/
def hex2 (b : Byte) : List Byte := [hexDigit (b / 16 % 16), hexDigit (b % 16)]

/-- `%04X` of a 16-bit word. -/
def hex4 (w : Nat) : List Byte :=
  [hexDigit (w / 4096 % 16), hexDigit (w / 256 % 16), hexDigit (w / 16 % 16), hexDigit (w % 16)]

/-- `%01X` of a byte: minimum width one, so two digits when the value
reaches 16. -/
def hex1min (b : Byte) : List Byte := if b < 16 then [hexDigit (b % 16)] else hex2 b

/-- `strconv.Itoa` of a natural number, as ASCII bytes. -/
def decimal (n : Nat) : List Byte := (Nat.toDigits 10 n).map Char.toNat

/-- ASCII bytes of a Lean string literal (test-vector helper). -/
def str2bytes (s : String) : List Byte := s.toList.map Char.toNat

/-- The UUID `fmt.Sprintf` of decoder.go: canonical 8-4-4-4-12 form with
the first three groups byte-reversed. `u` is the 16-byte UUID field. -/
def uuidRenderBytes (u : List Byte) : List Byte :=
  hex2 (u.getD 3 0) ++ hex2 (u.getD 2 0) ++ hex2 (u.getD 1 0) ++ hex2 (u.getD 0 0) ++ [45] ++
  hex2 (u.getD 5 0) ++ hex2 (u.getD 4 0) ++ [45] ++
  hex2 (u.getD 7 0) ++ hex2 (u.getD 6 0) ++ [45] ++
  hex2 (u.getD 8 0) ++ hex2 (u.getD 9 0) ++ [45] ++
  hex2 (u.getD 10 0) ++ hex2 (u.getD 11 0) ++ hex2 (u.getD 12 0) ++
  hex2 (u.getD 13 0) ++ hex2 (u.getD 14 0) ++ hex2 (u.getD 15 0)

/-- `strings.TrimSpace` restricted to ASCII whitespace bytes. -/
def isSpaceByte (b : Byte) : Bool := b = 32 || (9 ≤ b && b ≤ 13)

def trimSpace (s : List Byte) : List Byte :=
  ((s.dropWhile isSpaceByte).reverse.dropWhile isSpaceByte).reverse

/-!
## Per-type interpretation (`Decoder.next`, decoder.go lines 130-382)

The struct-cast field offsets follow structure.go:
`SMBIOSSystemInfo` has Manufacturer at formatted offset 0, ProductName
at 1, SN at 3, UUID at 4..20; `SMBIOSBaseboardInfo` has Manufacturer,
Product, Version, SerialNumber at 0..3; `SMBIOSProcessorType` has
ProcessorType at 1, ProcessorFamily at 2, ProcessorManufacturer at 3,
ProcessorID words at 4..12, CurrentSpeed at 18, CoreCount at 31 and
CoreCount2 at 38. `BIOSInfoRead` and `SystemEnclosure` are declared
outside the provided sources; modelled from the spec: BIOS vendor index
at offset 0, version index at 1, release-date index at 4, and enclosure
type byte at offset 0.
-/

/-- The UUID scan loop of the type-1 branch: visits UUID bytes in order
while `only0x00 == 1 || only0xFF == 1`, clearing each flag on a
mismatching byte (early exit preserved). -/
def uuidFlagsLoop (fb : List Byte) : Nat → Nat → Nat → Nat → Except String (Nat × Nat)
  | 0, _, only00, onlyFF => .ok (only00, onlyFF)
  | k + 1, i, only00, onlyFF =>
    if only00 = 1 ∨ onlyFF = 1 then do
      let b ← uread fb (4 + i)
      uuidFlagsLoop fb k (i + 1) (if b ≠ 0x00 then 0 else only00)
        (if b ≠ 0xFF then 0 else onlyFF)
    else .ok (only00, onlyFF)

/-- The 16 UUID bytes read by the `fmt.Sprintf` call (formatted offsets
4..20). -/
def readUUID (fb : List Byte) : Except String (List Byte) :=
  (List.range 16).mapM (fun i => uread fb (4 + i))

/-- The UUID block of the type-1 branch (`h.Length > 8`): scan the UUID
bytes, and when they are neither all `0x00` nor all `0xFF`, render the
UUID and append it to the string vector (`ss = append(ss, strUUID)` in
the source). -/
def type1UUID (h : Header) (fb : List Byte) (ss : List (List Byte)) :
    Except String (List (List Byte) × SystemInfo) := do
  let si : SystemInfo := {}
  if 8 < h.length then do
    let fl ← uuidFlagsLoop fb 16 0 1 1
    if fl.2 = 0 ∧ fl.1 = 0 then do
      let u ← readUUID fb
      let strUUID := uuidRenderBytes u
      pure (ss ++ [strUUID], { si with virtualMachineUUID := some strUUID })
    else pure (ss, si)
  else pure (ss, si)

/-- The string-index copies of the type-1 branch. Note the source
resolves `SystemManufacturerRef` from the ProductName index and
`SystemProductName` from the Manufacturer index, and checks no upper
bound on any of the three indices. -/
def type1Strings (fb : List Byte) (res : List (List Byte)) (si : SystemInfo) :
    Except String SystemInfo := do
  let productName ← uread fb 1
  let si ←
    (if 0 < productName then do
      let v ← ssIndex res (productName - 1)
      pure { si with systemManufacturerRef := some v }
    else pure si)
  let manufacturer ← uread fb 0
  let si ←
    (if 0 < manufacturer then do
      let v ← ssIndex res (manufacturer - 1)
      pure { si with systemProductName := some v }
    else pure si)
  let sn ← uread fb 3
  let si ←
    (if 0 < sn then do
      let v ← ssIndex res (sn - 1)
      pure { si with biosSerial := some v }
    else pure si)
  return si

/-- The `h.Type == 1` (System) branch of `Decoder.next`. -/
def interpType1 (h : Header) (fb : List Byte) (ss : List (List Byte)) :
    Except String (List (List Byte) × SystemInfo) := do
  let _ ← castGuard fb
  let rsi ← type1UUID h fb ss
  let si ← type1Strings fb rsi.1 rsi.2
  return (rsi.1, si)

/-- The `h.Type == 2` (Baseboard) branch of `Decoder.next`: all four
string indices bounds-checked with `> 0 && <= byte(len(ss))`. -/
def interpType2 (fb : List Byte) (ss : List (List Byte)) :
    Except String SystemInfo := do
  let _ ← castGuard fb
  let si : SystemInfo := {}
  let valArrSize := ss.length % 256
  let bb : BaseboardInfo := {}
  let m ← uread fb 0
  let bb ←
    (if 0 < m ∧ m ≤ valArrSize then do
      let v ← ssIndex ss (m - 1)
      pure { bb with manufacturer := some v }
    else pure bb)
  let p ← uread fb 1
  let bb ←
    (if 0 < p ∧ p ≤ valArrSize then do
      let v ← ssIndex ss (p - 1)
      pure { bb with product := some v }
    else pure bb)
  let vn ← uread fb 2
  let bb ←
    (if 0 < vn ∧ vn ≤ valArrSize then do
      let v ← ssIndex ss (vn - 1)
      pure { bb with version := some v }
    else pure bb)
  let sn ← uread fb 3
  let (bb, si) ←
    (if 0 < sn ∧ sn ≤ valArrSize then do
      let v ← ssIndex ss (sn - 1)
      pure ({ bb with serialNumber := some v }, { si with motherboardAdapter := some v })
    else pure (bb, si))
  return { si with baseboardInfo := some bb }

/-- The `h.Type == 3` (System enclosure) branch of `Decoder.next`:
enclosure type byte with the high bit masked off. -/
def interpType3 (fb : List Byte) :
    Except String SystemInfo := do
  let _ ← castGuard fb
  let t ← uread fb 0
  return { systemEnclosureType := some (t % 128) }

/-- The processor-ID validity scan: any of the four 16-bit words
positive, with early exit. -/
def procIDValid (fb : List Byte) : List Nat → Except String Bool
  | [] => .ok false
  | i :: is => do
    let w ← uread16 fb (4 + 2 * i)
    if 0 < w then pure true else procIDValid fb is

/-- The `h.Type == 4` (Processor) branch of `Decoder.next`. Note the
version condition `Major >= 3 || Minor < 5 || Minor > 9` selecting the
16-bit CoreCount2, and the manufacturer resolution `ss[idx]` (no `- 1`)
under the strict bound `idx < byte(len(ss))`. -/
def interpType4 (ver : SMBIOSVersion) (fb : List Byte) (ss : List (List Byte)) :
    Except String SystemInfo := do
  let _ ← castGuard fb
  let si : SystemInfo := {}
  let valid ← procIDValid fb [0, 1, 2, 3]
  let p : Processor := {}
  let (p, si) ←
    (if valid then do
      let w0 ← uread16 fb 4
      let w1 ← uread16 fb 6
      let w2 ← uread16 fb 8
      let w3 ← uread16 fb 10
      let cpuID := hex4 w3 ++ hex4 w2 ++ hex4 w1 ++ hex4 w0
      pure ({ p with id := some cpuID }, { si with processorID := some cpuID })
    else pure (p, si))
  let pt ← uread fb 1
  let si := if 0 < pt then { si with processorType := some (hex1min pt) } else si
  let fam ← uread fb 2
  let p := if 0 < fam then { p with family := some fam } else p
  let p ←
    (if 3 ≤ ver.major ∨ ver.minor < 5 ∨ 9 < ver.minor then do
      let cc2 ← uread16 fb 38
      pure (if 0 < cc2 then { p with coreCount := some cc2 } else p)
    else do
      let cc ← uread fb 31
      pure (if 0 < cc then { p with coreCount := some cc } else p))
  let valArrSize := ss.length % 256
  let pm ← uread fb 3
  let p ←
    (if 0 < pm ∧ pm < valArrSize then do
      let v ← ssIndex ss pm
      pure { p with product := some (trimSpace v) }
    else pure p)
  let cs ← uread16 fb 18
  let p := if 0 < cs then { p with clockSpeedInMHz := some cs } else p
  return { si with processors := si.processors ++ [p] }

/-- The length-gated explicit little-endian field copies at the start of
the `h.Type == 17` (Memory device) branch of `Decoder.next`. -/
def readMemInfo (fb : List Byte) : MemoryInfoRead :=
  let fbLen := fb.length
  let mi : MemoryInfoRead := {}
  let mi := if 17 ≤ fbLen then
      { mi with
        memArrayHandle := le16 fb 0
        memErrorInfoHandle := le16 fb 2
        totalWidth := le16 fb 4
        dataWidth := le16 fb 6
        size := le16 fb 8
        formFactor := fb.getD 10 0
        deviceSet := fb.getD 11 0
        deviceLocator := fb.getD 12 0
        bankLocator := fb.getD 13 0
        memType := fb.getD 14 0
        typeDetail := le16 fb 15 }
    else mi
  let mi := if 23 ≤ fbLen then
      { mi with
        speed := le16 fb 17
        manufacturer := fb.getD 19 0
        serialNumber := fb.getD 20 0
        assetTag := fb.getD 21 0
        partNumber := fb.getD 22 0 }
    else mi
  let mi := if 24 ≤ fbLen then { mi with attrib := fb.getD 23 0 } else mi
  let mi := if 30 ≤ fbLen then
      { mi with
        extendedSize := le32 fb 24
        configuredMemClockSpeed := le16 fb 28 }
    else mi
  let mi := if 36 ≤ fbLen then
      { mi with
        minVoltage := le16 fb 30
        maxVoltage := le16 fb 32
        configuredVoltage := le16 fb 34 }
    else mi
  mi

/-- The rest of the `h.Type == 17` (Memory device) branch of
`Decoder.next`: bounds-checked string resolution and the size computation
with the unconditional `fb[9]` access and no masking of bit 15. -/
def interpType17 (fb : List Byte) (ss : List (List Byte)) :
    Except String SystemInfo := do
  let si : SystemInfo := {}
  let fbLen := fb.length
  let mi := readMemInfo fb
  let arrSize := ss.length % 256
  let pm : PhysicalMemory := {}
  let pm ←
    (if 0 < mi.manufacturer ∧ mi.manufacturer ≤ arrSize then do
      let v ← ssIndex ss (mi.manufacturer - 1)
      pure { pm with manufacturer := some v }
    else pure pm)
  let psi ←
    (if 0 < mi.serialNumber ∧ mi.serialNumber ≤ arrSize then do
      let v ← ssIndex ss (mi.serialNumber - 1)
      pure ({ pm with serialNumber := some v }, { si with memory := some v })
    else pure (pm, si))
  let pm := psi.1
  let si := psi.2
  let memSize := if mi.size = 32767 ∧ 30 ≤ fbLen then mi.extendedSize else mi.size
  let b9 ← fbIndex fb 9
  let memSizeInByte := if b9 / 128 % 2 = 0 then memSize * 1048576 else memSize * 1024
  let pm := { pm with sizeInBytes := memSizeInByte }
  let pm := if 0 < mi.totalWidth then { pm with totalWidth := some mi.totalWidth } else pm
  let pm := if 0 < mi.dataWidth then { pm with dataWidth := some mi.dataWidth } else pm
  let si := if pm.sizeInBytes ≠ 0 then { si with phyMemory := si.phyMemory ++ [pm] } else si
  return si

/-- The `h.Type == 0` (BIOS) branch of `Decoder.next`. Vendor and version
indices are bounds-checked with `<=`; the release-date index has no upper
bound check. -/
def interpType0 (ver : SMBIOSVersion) (fb : List Byte) (ss : List (List Byte)) :
    Except String SystemInfo := do
  let _ ← castGuard fb
  let si : SystemInfo := {}
  let bi : BIOSInfo := {}
  let valArrSize := ss.length % 256
  let vendor ← uread fb 0
  let bi ←
    (if 0 < vendor ∧ vendor ≤ valArrSize then do
      let v ← ssIndex ss (vendor - 1)
      pure { bi with vendor := some v }
    else pure bi)
  let ver0 ← uread fb 1
  let bi ←
    (if 0 < ver0 ∧ ver0 ≤ valArrSize then do
      let v ← ssIndex ss (ver0 - 1)
      pure { bi with version := some v }
    else pure bi)
  let bi := if 0 ≤ ver.major ∧ 0 ≤ ver.minor then
      { bi with biosVersion := some (decimal ver.major ++ [46] ++ decimal ver.minor) }
    else bi
  let rd ← uread fb 4
  let bi ←
    (if 0 < rd then do
      let v ← ssIndex ss (rd - 1)
      pure { bi with releaseDate := some v }
    else pure bi)
  return { si with biosInfo := some bi }

/-- The dispatch over recognized header types in `Decoder.next` (each
type matches at most one of the source's successive `if` blocks). -/
def interpret (ver : SMBIOSVersion) (h : Header) (fb : List Byte) (ss : List (List Byte)) :
    Except String (List (List Byte) × SystemInfo) :=
  if h.type = 1 then interpType1 h fb ss
  else if h.type = 2 then (interpType2 fb ss).map (fun si => (ss, si))
  else if h.type = 3 then (interpType3 fb).map (fun si => (ss, si))
  else if h.type = 4 then (interpType4 ver fb ss).map (fun si => (ss, si))
  else if h.type = 17 then (interpType17 fb ss).map (fun si => (ss, si))
  else if h.type = 0 then (interpType0 ver fb ss).map (fun si => (ss, si))
  else .ok (ss, {})

/-!
## The decoder (`Decoder.next`, `Decoder.Decode`)
-/

/-- structure.go `Structure`, as returned by `Decoder.next`. -/
structure Structure where
  header : Header
  formatted : List Byte
  strings : List (List Byte)
  systemInfo : SystemInfo
deriving DecidableEq

/-- `Decoder.next`: header, formatted block, string set, then the
per-type interpretation (which may alter the string vector). -/
def next (ver : SMBIOSVersion) (s : List Byte) : Except String (Structure × List Byte) := do
  let (h, s1) ← parseHeader s
  let (fb, s2) ← parseFormatted h.length s1
  let (ss, s3) ← parseStrings s2
  let (ss2, si) ← interpret ver h fb ss
  return ({ header := h, formatted := fb, strings := ss2, systemInfo := si }, s3)

/-- The `Decoder.Decode` loop: collect structures until one with header
type 127, discarding everything on any failure. Structural fuel; each
successful `next` consumes at least one byte, so `s.length + 1` never
runs out (`decodeAux_no_fuel_error` below). -/
def decodeAux (ver : SMBIOSVersion) : Nat → List Byte → Except String (List Structure)
  | 0, _ => .error "decode fuel exhausted"
  | fuel + 1, s =>
    match next ver s with
    | .error e => .error e
    | .ok (st, rest) =>
      if st.header.type = 127 then .ok [st]
      else
        match decodeAux ver fuel rest with
        | .error e => .error e
        | .ok ss => .ok (st :: ss)

/-- `Decoder.Decode`. -/
def decode (ver : SMBIOSVersion) (s : List Byte) : Except String (List Structure) :=
  decodeAux ver (s.length + 1) s

/-- The structure produced by the `i`-th application of `Decoder.next` to
the stream (counting from 0): the stream-order anchor for the decoder. -/
def nthStruct (ver : SMBIOSVersion) : Nat → List Byte → Except String Structure
  | 0, s => (next ver s).map Prod.fst
  | i + 1, s =>
    match next ver s with
    | .error e => .error e
    | .ok (_, rest) => nthStruct ver i rest

/-!
## Byte-window scanner (stream_linux.go `findEntryPoint`)
-/

/-- `io.ReadFull` of `n` bytes at absolute position `addr` of a seekable
memory window. -/
def readAt (mem : List Byte) (addr n : Nat) : Except String (List Byte) :=
  if addr + n ≤ mem.length then .ok ((mem.drop addr).take n) else .error "unexpected EOF"

/-- Modelled from the spec: `magicPrefix` (declared outside the provided
sources) — the scanner tests the leading bytes of a paragraph against either
anchor prefix. -/
def anchorMatch (b : List Byte) : Bool :=
  magic32.isPrefixOf b || magic64.isPrefixOf b

/-- The scan loop of `findEntryPoint`: one 16-byte paragraph per step
from `addr` while `addr < endB`. Structural fuel; `endB - start + 1`
steps always cover the window. -/
def fepSearch (mem : List Byte) (endB : Nat) : Nat → Nat → Except String Nat
  | 0, _ => .error "no SMBIOS entry point found in memory"
  | k + 1, addr =>
    if addr < endB then
      match readAt mem addr 16 with
      | .error e => .error e
      | .ok b =>
        if anchorMatch b then .ok addr
        else fepSearch mem endB k (addr + 16)
    else .error "no SMBIOS entry point found in memory"

/-- stream_linux.go `findEntryPoint(rs, start, end)`. -/
def findEntryPoint (mem : List Byte) (start endB : Nat) : Except String Nat :=
  fepSearch mem endB (endB - start + 1) start

/-!
## The opaque stream wrapper (decoder.go `Stream`, `opaqueReadCloser`)

An `io.ReadCloser` is modelled as a state machine over an abstract state
type: `Read` takes a buffer size and returns the bytes written plus an
optional error, `Close` returns an optional error; each may advance the
state.
-/

structure ReadCloser (σ : Type) where
  read : σ → Nat → (List Byte × Option String) × σ
  close : σ → Option String × σ

/-- decoder.go `opaqueReadCloser`: masks the concrete type, delegating
`Read` and `Close` to the wrapped stream. -/
def opaqueReadCloser (rc : ReadCloser σ) : ReadCloser σ :=
  { read := fun st n => rc.read st n
    close := fun st => rc.close st }

/-- decoder.go `Stream`: pass through the platform stream and entry
point, wrapping the stream in the opaque type (the platform collaborator
is abstract here). -/
def StreamGo (platform : Except String (ReadCloser σ × ε)) :
    Except String (ReadCloser σ × ε) :=
  match platform with
  | .error e => .error e
  | .ok (rc, ep) => .ok (opaqueReadCloser rc, ep)

/-- The byte sequence obtained by repeatedly calling `Read` with buffer
size `bufSz` until an error (such as EOF) is reported or the fuel runs
out. -/
def readSeq (rc : ReadCloser σ) (bufSz : Nat) : Nat → σ → List Byte
  | 0, _ => []
  | fuel + 1, st =>
    let r := rc.read st bufSz
    match r.1.2 with
    | some _ => r.1.1
    | none => r.1.1 ++ readSeq rc bufSz fuel r.2

/-- The spec-side first-aligned-match predicate for the byte-window
scanner: `a` lies on the 16-byte paragraph grid anchored at `start`,
inside the half-open window, an anchor prefix begins in its paragraph,
and no earlier grid paragraph matches. -/
def alignedFirstMatch (mem : List Byte) (start endB a : Nat) : Prop :=
  ∃ i, a = start + 16 * i ∧ a < endB ∧
    anchorMatch (slice mem a (a + 16)) = true ∧
    ∀ j < i, anchorMatch (slice mem (start + 16 * j) (start + 16 * j + 16)) = false

/-- A minimal end-of-table structure (test vector). -/
def endStructEx : Structure :=
  { header := { type := 127, length := 4, handle := 1 }
    formatted := []
    strings := []
    systemInfo := {} }

/-!
## Lemmas: stream consumption and fuel adequacy

Each successful framer step consumes input, so the structural fuel
`s.length + 1` used by `parseStrings` and `decode` is always sufficient:
any larger fuel gives the same result (`parseStringsLoop_fuel_irrel`,
`decodeAux_fuel_irrel`).
-/

theorem readFull_ok {n : Nat} {s b rest : List Byte}
    (h : readFull n s = .ok (b, rest)) :
    b = s.take n ∧ rest = s.drop n ∧ n ≤ s.length := by
  unfold readFull at h
  split at h
  · cases h; exact ⟨rfl, rfl, by assumption⟩
  · cases h

theorem parseHeader_ok {s : List Byte} {hd : Header} {rest : List Byte}
    (h : parseHeader s = .ok (hd, rest)) :
    rest = s.drop 4 ∧ 4 ≤ s.length := by
  unfold parseHeader at h
  cases hrf : readFull 4 s with
  | error e => rw [hrf] at h; cases h
  | ok pr =>
    rw [hrf] at h
    cases h
    obtain ⟨-, h2, h3⟩ := readFull_ok hrf
    exact ⟨h2, h3⟩

theorem parseFormatted_ok {hlen : Nat} {s fb rest : List Byte}
    (h : parseFormatted hlen s = .ok (fb, rest)) :
    rest.length ≤ s.length := by
  unfold parseFormatted at h
  split at h
  · cases h
  · obtain ⟨-, h2, -⟩ := readFull_ok h
    subst h2
    simp

theorem readBytes0_length {s p r : List Byte} (h : readBytes0 s = some (p, r)) :
    r.length < s.length := by
  induction s generalizing p r with
  | nil => simp [readBytes0] at h
  | cons x xs ih =>
    cases x with
    | zero =>
      simp [readBytes0] at h
      obtain ⟨-, rfl⟩ := h
      simp
    | succ n =>
      simp only [readBytes0, Option.map_eq_some'] at h
      obtain ⟨⟨p0, r0⟩, hpr, heq⟩ := h
      cases heq
      exact Nat.lt_trans (ih hpr) (by simp)

theorem parseString_ok {s str rest : List Byte} {more : Bool}
    (h : parseString s = .ok (str, more, rest)) :
    rest.length < s.length ∧ (more = false → rest.length + 2 ≤ s.length) := by
  unfold parseString at h
  cases hrb : readBytes0 s with
  | none => rw [hrb] at h; cases h
  | some pr =>
    rw [hrb] at h
    obtain ⟨p0, r0⟩ := pr
    have hlen := readBytes0_length hrb
    match hr0 : r0 with
    | [] => cases h
    | 0 :: rest2 =>
      cases h
      constructor
      · simp at hlen; omega
      · intro _; simp at hlen; omega
    | (n + 1) :: rest2 =>
      cases h
      exact ⟨hlen, by intro hc; cases hc⟩

theorem parseStringsLoop_length :
    ∀ (fuel : Nat) (s : List Byte) (acc res : List (List Byte)) (rest : List Byte),
    parseStringsLoop fuel s acc = .ok (res, rest) → rest.length + 2 ≤ s.length := by
  intro fuel
  induction fuel with
  | zero => intro s acc res rest h; cases h
  | succ f ih =>
    intro s acc res rest h
    unfold parseStringsLoop at h
    cases hps : parseString s with
    | error e => rw [hps] at h; cases h
    | ok v =>
      rw [hps] at h
      obtain ⟨str, more, rest1⟩ := v
      obtain ⟨h1, h2⟩ := parseString_ok hps
      cases more with
      | false =>
        simp at h
        obtain ⟨-, rfl⟩ := h
        exact h2 rfl
      | true =>
        simp at h
        have := ih rest1 (acc ++ [str]) res rest h
        omega

theorem parseStrings_ok {s : List Byte} {res : List (List Byte)} {rest : List Byte}
    (h : parseStrings s = .ok (res, rest)) : rest.length + 2 ≤ s.length := by
  unfold parseStrings at h
  split at h
  · cases h
  · split at h
    · cases h
      simp
      omega
    · exact parseStringsLoop_length _ _ _ _ _ h

theorem parseStringsLoop_fuel_irrel :
    ∀ (f1 : Nat) (s : List Byte) (acc : List (List Byte)) (f2 : Nat),
    s.length < f1 → s.length < f2 →
    parseStringsLoop f1 s acc = parseStringsLoop f2 s acc := by
  intro f1
  induction f1 with
  | zero => intro s acc f2 h1 _; omega
  | succ g ih =>
    intro s acc f2 h1 h2
    cases f2 with
    | zero => omega
    | succ g2 =>
      unfold parseStringsLoop
      cases hps : parseString s with
      | error e => rfl
      | ok v =>
        obtain ⟨str, more, rest1⟩ := v
        obtain ⟨hlt, -⟩ := parseString_ok hps
        cases more with
        | false => rfl
        | true =>
          simp only
          exact ih rest1 (acc ++ [str]) g2 (by omega) (by omega)

theorem next_ok {ver : SMBIOSVersion} {s : List Byte} {st : Structure} {rest : List Byte}
    (h : next ver s = .ok (st, rest)) :
    ∃ hd s1 fb s2 ss s3 ss2 si,
      parseHeader s = .ok (hd, s1) ∧ parseFormatted hd.length s1 = .ok (fb, s2) ∧
      parseStrings s2 = .ok (ss, s3) ∧ interpret ver hd fb ss = .ok (ss2, si) ∧
      st = { header := hd, formatted := fb, strings := ss2, systemInfo := si } ∧ rest = s3 := by
  unfold next at h
  simp only [bind, Except.bind] at h
  cases hph : parseHeader s with
  | error e => rw [hph] at h; cases h
  | ok v1 =>
    rw [hph] at h
    obtain ⟨hd, s1⟩ := v1
    dsimp only at h
    cases hpf : parseFormatted hd.length s1 with
    | error e => rw [hpf] at h; cases h
    | ok v2 =>
      rw [hpf] at h
      obtain ⟨fb, s2⟩ := v2
      dsimp only at h
      cases hpss : parseStrings s2 with
      | error e => rw [hpss] at h; cases h
      | ok v3 =>
        rw [hpss] at h
        obtain ⟨ss, s3⟩ := v3
        dsimp only at h
        cases hint : interpret ver hd fb ss with
        | error e => rw [hint] at h; cases h
        | ok v4 =>
          rw [hint] at h
          obtain ⟨ss2, si⟩ := v4
          dsimp only at h
          simp only [pure, Except.pure] at h
          cases h
          exact ⟨hd, s1, fb, s2, ss, _, ss2, si, rfl, hpf, hpss, hint, rfl, rfl⟩

theorem next_consumes {ver : SMBIOSVersion} {s : List Byte} {st : Structure} {rest : List Byte}
    (h : next ver s = .ok (st, rest)) : rest.length + 6 ≤ s.length := by
  obtain ⟨hd, s1, fb, s2, ss, s3, ss2, si, h1, h2, h3, -, -, rfl⟩ := next_ok h
  obtain ⟨hs1, hs4⟩ := parseHeader_ok h1
  have h2l := parseFormatted_ok h2
  have h3l := parseStrings_ok h3
  subst hs1
  simp at h2l
  omega

theorem decodeAux_fuel_irrel (ver : SMBIOSVersion) :
    ∀ (f1 : Nat) (s : List Byte) (f2 : Nat), s.length < f1 → s.length < f2 →
    decodeAux ver f1 s = decodeAux ver f2 s := by
  intro f1
  induction f1 with
  | zero => intro s f2 h1 _; omega
  | succ g ih =>
    intro s f2 h1 h2
    cases f2 with
    | zero => omega
    | succ g2 =>
      unfold decodeAux
      cases hnx : next ver s with
      | error e => rfl
      | ok v =>
        obtain ⟨st, rest⟩ := v
        have hc := next_consumes hnx
        simp only
        split
        · rfl
        · rw [ih rest g2 (by omega) (by omega)]

theorem decodeAux_complete (ver : SMBIOSVersion) :
    ∀ (fuel : Nat) (s : List Byte) (ss : List Structure),
    decodeAux ver fuel s = .ok ss →
    (∃ pre last, ss = pre ++ [last] ∧ last.header.type = 127 ∧
       ∀ st ∈ pre, st.header.type ≠ 127)
    ∧ (∀ i (hi : i < ss.length), nthStruct ver i s = .ok (ss.get ⟨i, hi⟩)) := by
  intro fuel
  induction fuel with
  | zero => intro s ss h; cases h
  | succ f ih =>
    intro s ss h
    unfold decodeAux at h
    cases hnx : next ver s with
    | error e => rw [hnx] at h; cases h
    | ok v =>
      rw [hnx] at h
      obtain ⟨st, rest⟩ := v
      dsimp only at h
      by_cases h127 : st.header.type = 127
      · rw [if_pos h127] at h
        cases h
        refine ⟨⟨[], st, rfl, h127, by simp⟩, ?_⟩
        intro i hi
        simp at hi
        subst hi
        simp [nthStruct, hnx, Except.map]
      · rw [if_neg h127] at h
        cases hrec : decodeAux ver f rest with
        | error e => rw [hrec] at h; cases h
        | ok ss0 =>
          rw [hrec] at h
          cases h
          obtain ⟨hex, hnth⟩ := ih rest ss0 hrec
          constructor
          · obtain ⟨pre0, last0, heq, hl, hpre⟩ := hex
            refine ⟨st :: pre0, last0, by rw [heq]; simp, hl, ?_⟩
            intro x hx
            cases hx with
            | head => exact h127
            | tail _ hx2 => exact hpre x hx2
          · intro i hi
            cases i with
            | zero => simp [nthStruct, hnx, Except.map]
            | succ j =>
              simp only [nthStruct, hnx]
              have hj : j < ss0.length := by simp at hi; omega
              have := hnth j hj
              simpa using this

/-- Claim C2: `Decode` is atomic and terminates exactly at the
end-of-table record: whenever it succeeds, the returned sequence is
nonempty, its final structure is the unique one with header type 127, and
the `i`-th returned structure is exactly the one produced by the `i`-th
application of `next` to the stream (stream order); any failure returns
an error and no structures (the `Except` result carries no partial
sequence), so a stream ending before an end-of-table record yields an
error rather than a prefix, and reaching any table-size bound does not
stop the decoder (the decoder takes no size input). -/
theorem c2_decode_atomic_complete (ver : SMBIOSVersion) (s : List Byte) (ss : List Structure)
    (h : decode ver s = .ok ss) :
    (∃ pre last, ss = pre ++ [last] ∧ last.header.type = 127 ∧
      ∀ st ∈ pre, st.header.type ≠ 127)
    ∧ (∀ i (hi : i < ss.length), nthStruct ver i s = .ok (ss.get ⟨i, hi⟩)) :=
  decodeAux_complete ver (s.length + 1) s ss h

/-- Witness for C2 at a concrete one-structure stream. -/
theorem c2_witness :
    (∃ pre last, [endStructEx] = pre ++ [last] ∧ last.header.type = 127 ∧
      ∀ st ∈ pre, st.header.type ≠ 127)
    ∧ (∀ i (hi : i < [endStructEx].length),
        nthStruct { major := 2, minor := 6 } i [127, 4, 1, 0, 0, 0]
          = .ok ([endStructEx].get ⟨i, hi⟩)) :=
  c2_decode_atomic_complete { major := 2, minor := 6 } [127, 4, 1, 0, 0, 0] [endStructEx]
    (by decide)

/-- Claim C1 (code-bug evidence): string-index resolution is not the
uniform 1-based rule. At a type-4 structure whose manufacturer index is 1
with string vector `["AA", "BB"]`, the projection returns `"BB"`
(`ss[1]`, the 2nd string) instead of `strings[0] = "AA"`; and at a type-1
structure whose product-name index is 2 with a single string, resolution
panics instead of reporting the field absent. -/
theorem c1_string_resolution_divergence :
    (interpType4 { major := 2, minor := 6 } ((List.replicate 40 0).set 3 1)
        [str2bytes "AA", str2bytes "BB"]).map
        (fun si => si.processors.map (fun p => p.product))
      = .ok [some (str2bytes "BB")]
    ∧ [str2bytes "AA", str2bytes "BB"].get? 0 = some (str2bytes "AA")
    ∧ interpType1 { type := 1, length := 24, handle := 0 }
        ([1, 2, 0, 0] ++ List.replicate 16 0) [str2bytes "AA"]
      = .error "panic: index out of range" := by decide

/-- Claim C3 (code-bug evidence): for a type-17 structure with 16-bit
size `0x8001` (bit 15 set, so kilobyte units), the code multiplies the
unmasked value: it reports `0x8001 * 1024` bytes, not
`(0x8001 & 0x7FFF) * 1024`. -/
theorem c3_memory_size_unmasked :
    (interpType17 (((List.replicate 17 0).set 8 1).set 9 128) []).map
        (fun si => si.phyMemory.map (fun pm => pm.sizeInBytes))
      = .ok [32769 * 1024]
    ∧ 32769 * 1024 ≠ (32769 % 32768) * 1024 := by decide

/-- Claim C4 (code-bug evidence): for a type-1 structure with
manufacturer index 1 (offset 0) and product-name index 2 (offset 1) over
strings `["AA", "BB"]`, the code assigns the manufacturer projection from
the product-name index (`"BB"`) and the product-name projection from the
manufacturer index (`"AA"`) — the two fields are swapped relative to the
claim. -/
theorem c4_system_fields_swapped :
    (interpType1 { type := 1, length := 24, handle := 0 }
        ([1, 2, 0, 0] ++ List.replicate 16 0) [str2bytes "AA", str2bytes "BB"]).map
        (fun r => (r.2.systemManufacturerRef, r.2.systemProductName))
      = .ok (some (str2bytes "BB"), some (str2bytes "AA"))
    ∧ str2bytes "BB" ≠ str2bytes "AA" := by decide

/-- Claim C7 (code-bug evidence): at SMBIOS version 2.4 with the 8-bit
core count equal to 8 (not the 0xFF sentinel) and CoreCount2 equal to 16,
the code reports 16 — it selects the 16-bit field via the condition
`Major >= 3 || Minor < 5 || Minor > 9`, not via the `major >= 3` plus
0xFF-sentinel rule of the claim, which requires 8 here. -/
theorem c7_core_count_version_condition :
    (interpType4 { major := 2, minor := 4 } (((List.replicate 40 0).set 31 8).set 38 16) []).map
        (fun si => si.processors.map (fun p => p.coreCount))
      = .ok [some 16]
    ∧ (((List.replicate 40 0).set 31 8).set 38 16).getD 31 0 = 8
    ∧ (8 : Nat) ≠ 255 := by decide

/-- Claim C8 (code-bug evidence): interpretation of recognized types
fails on short formatted blocks instead of reporting fields absent: a
type-1 structure with header length 4 (empty formatted block) panics at
`&fb[0]`, and a type-17 structure with header length 4 panics at the
unconditional `fb[9]` access, so `next` fails on both streams. -/
theorem c8_short_formatted_panics :
    next { major := 2, minor := 6 } [1, 4, 0, 0, 0, 0]
      = .error "panic: index out of range"
    ∧ next { major := 2, minor := 6 } [17, 4, 0, 0, 0, 0]
      = .error "panic: index out of range" := by decide

/-- Claim C9 (counterexample): decoding a type-1 structure whose UUID
bytes are neither all 0x00 nor all 0xFF appends the rendered UUID to the
structure string vector: the decoded vector is
`["abcd", "103598A4-E271-E211-ADB1-DF8BE4841F5B"]`, not the framed
`["abcd"]`. -/
theorem c9_uuid_appended_counterexample :
    (decode { major := 2, minor := 6 }
        ([1, 24, 1, 0] ++ [0, 0, 0, 0] ++
          [0xA4, 0x98, 0x35, 0x10, 0x71, 0xE2, 0x11, 0xE2,
           0xAD, 0xB1, 0xDF, 0x8B, 0xE4, 0x84, 0x1F, 0x5B] ++
          (str2bytes "abcd" ++ [0, 0]) ++ [127, 4, 2, 0, 0, 0])).map
        (fun ss => ss.map (fun st => st.strings))
      = .ok [[str2bytes "abcd", str2bytes "103598A4-E271-E211-ADB1-DF8BE4841F5B"], []]
    ∧ [str2bytes "abcd", str2bytes "103598A4-E271-E211-ADB1-DF8BE4841F5B"]
        ≠ [str2bytes "abcd"] := by decide

/-- Claim C10: the opaque wrapper returned by `Stream` delegates every
`Read` and `Close` call unchanged to the wrapped platform stream, so the
byte sequence readable through it equals that of the underlying stream. -/
theorem c10_opaque_passthrough {σ ε : Type} (rc : ReadCloser σ) (ep : ε) :
    StreamGo (Except.ok (rc, ep)) = .ok (opaqueReadCloser rc, ep)
    ∧ (∀ st n, (opaqueReadCloser rc).read st n = rc.read st n)
    ∧ (∀ st, (opaqueReadCloser rc).close st = rc.close st)
    ∧ (∀ bufSz fuel st, readSeq (opaqueReadCloser rc) bufSz fuel st = readSeq rc bufSz fuel st) :=
  ⟨rfl, fun _ _ => rfl, fun _ => rfl, fun _ _ _ => rfl⟩

/-!
## Lemmas: checksum arithmetic
-/

theorem addAll_lt : ∀ (xs : List Byte) (chk : Nat), chk < 256 → addAll xs chk < 256 := by
  intro xs
  induction xs with
  | nil => intro chk h; simpa [addAll] using h
  | cons x xs ih =>
    intro chk h
    simpa [addAll] using ih ((chk + x) % 256) (Nat.mod_lt _ (by omega))

theorem addAll_eq : ∀ (xs : List Byte) (chk : Nat), chk < 256 →
    addAll xs chk = (chk + xs.sum) % 256 := by
  intro xs
  induction xs with
  | nil => intro chk h; simp [addAll, Nat.mod_eq_of_lt h]
  | cons x xs ih =>
    intro chk h
    simp only [addAll, List.sum_cons]
    rw [ih ((chk + x) % 256) (Nat.mod_lt _ (by omega)), Nat.mod_add_mod]
    omega

theorem chkGo_lt : ∀ (b : List Byte) (k chk : Nat), chk < 256 → chkGo b k chk < 256 := by
  intro b
  induction b with
  | nil => intro k chk h; simpa [chkGo] using h
  | cons x xs ih =>
    intro k chk h
    cases k with
    | zero => simpa [chkGo] using addAll_lt xs chk h
    | succ j => simpa [chkGo] using ih j ((chk + x) % 256) (Nat.mod_lt _ (by omega))

theorem chkGo_spec : ∀ (b : List Byte) (k chk : Nat), chk < 256 → k < b.length →
    (chkGo b k chk + b.getD k 0) % 256 = (chk + b.sum) % 256 := by
  intro b
  induction b with
  | nil => intro k chk _ hk; simp at hk
  | cons x xs ih =>
    intro k chk h hk
    cases k with
    | zero =>
      simp only [chkGo, List.getD_cons_zero, List.sum_cons]
      rw [addAll_eq xs chk h, Nat.mod_add_mod]
      omega
    | succ j =>
      simp only [chkGo, List.getD_cons_succ, List.sum_cons]
      have hj : j < xs.length := by simpa using hk
      rw [ih j ((chk + x) % 256) (Nat.mod_lt _ (by omega)) hj, Nat.mod_add_mod]
      omega

theorem chkSum_zero_of {g c s : Nat} (_hk : g < 256) (hz : c = 0)
    (hcs : (c + g) % 256 = (g + s) % 256) : s % 256 = 0 := by omega

theorem chkSum_ne_zero {g c s : Nat} (hlt : c < 256) (hz : ¬c = 0)
    (hcs : (c + g) % 256 = (g + s) % 256) (hs : s % 256 = 0) : False := by omega

/-- Claim C5: after the anchor, length and (for the 32-bit variant)
intermediate-anchor checks pass, entry-point parsing accepts the record
if and only if the unsigned 8-bit additive sum of every byte of the
record — the stored checksum byte counted exactly once — is zero
modulo 256. -/
theorem c5_entry_checksum_iff (b : List Byte) (hb : ∀ x ∈ b, x < 256) :
    ((slice b 0 4 = magic32 ∧ 31 ≤ b.length ∧ b.getD 5 0 = b.length ∧
        slice b 16 21 = magicDMI) →
      ((∃ ep, parse32 b = .ok ep) ↔ b.sum % 256 = 0))
    ∧ ((slice b 0 5 = magic64 ∧ 24 ≤ b.length ∧ b.getD 6 0 = b.length) →
      ((∃ ep, parse64 b = .ok ep) ↔ b.sum % 256 = 0)) := by
  constructor
  · rintro ⟨-, h31, hlen, hdmi⟩
    have h4 : (4 : Nat) < b.length := by omega
    have hk4 : b.getD 4 0 < 256 := by
      rw [List.getD_eq_getElem b 0 h4]
      exact hb _ (List.getElem_mem h4)
    have hcs := chkGo_spec b 4 (b.getD 4 0) hk4 h4
    have hlt := chkGo_lt b 4 (b.getD 4 0) hk4
    unfold parse32
    rw [if_neg (by omega), if_neg (fun hc => hc hlen.symm), if_neg (by simp [hdmi])]
    unfold checksum
    by_cases hz : chkGo b 4 (b.getD 4 0) = 0
    · rw [if_pos hz]
      dsimp only
      constructor
      · intro _
        exact chkSum_zero_of hk4 hz hcs
      · intro _
        exact ⟨_, rfl⟩
    · rw [if_neg hz]
      dsimp only
      constructor
      · rintro ⟨ep, hep⟩
        cases hep
      · intro hs
        exact (chkSum_ne_zero hlt hz hcs hs).elim
  · rintro ⟨-, h24, hlen⟩
    have h5 : (5 : Nat) < b.length := by omega
    have hk5 : b.getD 5 0 < 256 := by
      rw [List.getD_eq_getElem b 0 h5]
      exact hb _ (List.getElem_mem h5)
    have hcs := chkGo_spec b 5 (b.getD 5 0) hk5 h5
    have hlt := chkGo_lt b 5 (b.getD 5 0) hk5
    unfold parse64
    rw [if_neg (by omega), if_neg (fun hc => hc hlen.symm)]
    unfold checksum
    by_cases hz : chkGo b 5 (b.getD 5 0) = 0
    · rw [if_pos hz]
      dsimp only
      constructor
      · intro _
        exact chkSum_zero_of hk5 hz hcs
      · intro _
        exact ⟨_, rfl⟩
    · rw [if_neg hz]
      dsimp only
      constructor
      · rintro ⟨ep, hep⟩
        cases hep
      · intro hs
        exact (chkSum_ne_zero hlt hz hcs hs).elim

/-- Witness for C5: a concrete valid 32-bit record and the 64-bit record
of the well-formed-entry-point scenario both parse successfully. -/
theorem c5_witness :
    (∃ ep, parse32 [0x5F, 0x53, 0x4D, 0x5F, 0xE1, 0x1F, 2, 8, 0, 0, 0, 0, 0, 0, 0, 0,
        0x5F, 0x44, 0x4D, 0x49, 0x5F, 0, 0, 0, 0, 0, 0, 0, 0, 0, 0] = .ok ep)
    ∧ (∃ ep, parse64 [0x5F, 0x53, 0x4D, 0x33, 0x5F, 0x86, 0x18, 0x03, 0, 0, 0x01, 0,
        0x53, 0x09, 0, 0, 0xB0, 0xB3, 0x0E, 0, 0, 0, 0, 0] = .ok ep) := by
  constructor
  · exact ((c5_entry_checksum_iff _ (by decide)).1 (by decide)).mpr (by decide)
  · exact ((c5_entry_checksum_iff _ (by decide)).2 (by decide)).mpr (by decide)

/-!
## Lemmas: the byte-window scanner
-/

theorem slice_window (mem : List Byte) (a : Nat) :
    slice mem a (a + 16) = (mem.drop a).take 16 := by
  simp [slice]

theorem fepSearch_spec (mem : List Byte) (endB : Nat) :
    ∀ (k addr : Nat), endB ≤ addr + 16 * k →
    (∀ j, addr + 16 * j < endB → addr + 16 * j + 16 ≤ mem.length) →
    ∀ a, (fepSearch mem endB k addr = .ok a ↔
      (∃ i, a = addr + 16 * i ∧ a < endB ∧
        anchorMatch (slice mem a (a + 16)) = true ∧
        ∀ j < i, anchorMatch (slice mem (addr + 16 * j) (addr + 16 * j + 16)) = false)) := by
  intro k
  induction k with
  | zero =>
    intro addr hcov _ a
    constructor
    · intro h
      cases h
    · rintro ⟨i, rfl, hlt, -, -⟩
      exfalso
      omega
  | succ k ih =>
    intro addr hcov hread a
    by_cases hb : addr < endB
    · have hrd : addr + 16 ≤ mem.length := by
        have h0 := hread 0 (by omega)
        omega
      have hra : readAt mem addr 16 = .ok ((mem.drop addr).take 16) := by
        unfold readAt
        rw [if_pos hrd]
      unfold fepSearch
      rw [if_pos hb, hra]
      dsimp only
      by_cases hm : anchorMatch ((mem.drop addr).take 16) = true
      · rw [if_pos hm]
        constructor
        · intro h
          cases h
          refine ⟨0, by omega, hb, ?_, by omega⟩
          rw [slice_window]
          exact hm
        · rintro ⟨i, rfl, hlt, hmt, hprev⟩
          cases i with
          | zero => norm_num
          | succ j =>
            exfalso
            have hp0 := hprev 0 (by omega)
            have e : addr + 16 * 0 = addr := by omega
            rw [e, slice_window] at hp0
            rw [hp0] at hm
            cases hm
      · rw [if_neg hm]
        have hreadS : ∀ j, (addr + 16) + 16 * j < endB → (addr + 16) + 16 * j + 16 ≤ mem.length := by
          intro j hj
          have := hread (j + 1) (by omega)
          omega
        have IH := ih (addr + 16) (by omega) hreadS a
        rw [IH]
        constructor
        · rintro ⟨i, rfl, hlt, hmt, hprev⟩
          refine ⟨i + 1, by ring, hlt, hmt, ?_⟩
          intro j hj
          cases j with
          | zero =>
            have e : addr + 16 * 0 = addr := by omega
            rw [e, slice_window]
            simpa using hm
          | succ j2 =>
            have e : addr + 16 * (j2 + 1) = addr + 16 + 16 * j2 := by ring
            rw [e]
            exact hprev j2 (by omega)
        · rintro ⟨i, rfl, hlt, hmt, hprev⟩
          cases i with
          | zero =>
            exfalso
            have e : addr + 16 * 0 = addr := by omega
            rw [e, slice_window] at hmt
            exact hm hmt
          | succ i2 =>
            refine ⟨i2, by ring, hlt, hmt, ?_⟩
            intro j hj
            have e : addr + 16 + 16 * j = addr + 16 * (j + 1) := by ring
            rw [e]
            exact hprev (j + 1) (by omega)
    · unfold fepSearch
      rw [if_neg hb]
      constructor
      · intro h
        cases h
      · rintro ⟨i, rfl, hlt, -, -⟩
        exfalso
        omega

theorem fepSearch_none (mem : List Byte) (endB : Nat) :
    ∀ (k addr : Nat),
    (∀ j, addr + 16 * j < endB → addr + 16 * j + 16 ≤ mem.length) →
    (∀ j, addr + 16 * j < endB →
      anchorMatch (slice mem (addr + 16 * j) (addr + 16 * j + 16)) = false) →
    fepSearch mem endB k addr = .error "no SMBIOS entry point found in memory" := by
  intro k
  induction k with
  | zero => intro addr _ _; rfl
  | succ k ih =>
    intro addr hread hnone
    unfold fepSearch
    by_cases hb : addr < endB
    · rw [if_pos hb]
      have hrd : addr + 16 ≤ mem.length := by
        have h0 := hread 0 (by omega)
        omega
      have hra : readAt mem addr 16 = .ok ((mem.drop addr).take 16) := by
        unfold readAt
        rw [if_pos hrd]
      rw [hra]
      dsimp only
      have hm0 : anchorMatch ((mem.drop addr).take 16) = false := by
        have hn0 := hnone 0 (by omega)
        have e : addr + 16 * 0 = addr := by omega
        rw [e, slice_window] at hn0
        exact hn0
      rw [if_neg (by simp [hm0])]
      refine ih (addr + 16) ?_ ?_
      · intro j hj
        have := hread (j + 1) (by omega)
        omega
      · intro j hj
        have e : addr + 16 + 16 * j = addr + 16 * (j + 1) := by ring
        rw [e]
        exact hnone (j + 1) (by omega)
    · rw [if_neg hb]

/-- Claim C6: under a readable window, the scanner returns offset `a` if
and only if `a` is the first position on the 16-byte paragraph grid of
the half-open window `[start, endB)` at which an anchor prefix begins;
and when no grid paragraph in the window matches, it fails with the
no-entry-point error. -/
theorem c6_scanner_first_aligned (mem : List Byte) (start endB : Nat)
    (hread : ∀ j, start + 16 * j < endB → start + 16 * j + 16 ≤ mem.length) :
    (∀ a, findEntryPoint mem start endB = .ok a ↔ alignedFirstMatch mem start endB a)
    ∧ ((∀ j, start + 16 * j < endB →
          anchorMatch (slice mem (start + 16 * j) (start + 16 * j + 16)) = false) →
        findEntryPoint mem start endB = .error "no SMBIOS entry point found in memory") := by
  constructor
  · intro a
    unfold findEntryPoint alignedFirstMatch
    exact fepSearch_spec mem endB (endB - start + 1) start (by omega) hread a
  · intro hnone
    unfold findEntryPoint
    exact fepSearch_none mem endB (endB - start + 1) start hread hnone

/-- Witness for C6: a 48-byte memory whose second paragraph starts with
the `_SM_` anchor; scanning `[0, 32)` returns offset 16. -/
theorem c6_witness :
    findEntryPoint (List.replicate 16 0 ++ (magic32 ++ List.replicate 28 0)) 0 32 = .ok 16 := by
  refine ((c6_scanner_first_aligned
    (List.replicate 16 0 ++ (magic32 ++ List.replicate 28 0)) 0 32 ?_).1 16).mpr ?_
  · intro j hj
    have hj1 : j = 0 ∨ j = 1 := by omega
    rcases hj1 with rfl | rfl <;> decide
  · refine ⟨1, by decide, by decide, by decide, ?_⟩
    intro j hj
    have hj0 : j = 0 := by omega
    subst hj0
    decide

/-!
## Lemmas: the string vector across interpretation
-/

theorem mapPair_ok {α : Type} {x : Except String α} {ss ss2 : List (List Byte)}
    {v : α} (hm : (Except.map (fun y => (ss, y)) x) = .ok (ss2, v)) : ss2 = ss := by
  cases x with
  | error e => cases hm
  | ok v => cases hm; rfl

theorem type1UUID_strings {h : Header} {fb : List Byte} {ss : List (List Byte)}
    {r : List (List Byte) × SystemInfo} (hq : type1UUID h fb ss = .ok r) :
    r.1 = ss ∨ (8 < h.length ∧
      (∃ fl, uuidFlagsLoop fb 16 0 1 1 = .ok fl ∧ fl.1 = 0 ∧ fl.2 = 0) ∧
      ∃ u, readUUID fb = .ok u ∧ r.1 = ss ++ [uuidRenderBytes u]) := by
  unfold type1UUID at hq
  by_cases hl : 8 < h.length
  · rw [if_pos hl] at hq
    simp only [bind, Except.bind] at hq
    cases hfl : uuidFlagsLoop fb 16 0 1 1 with
    | error e => rw [hfl] at hq; cases hq
    | ok fl =>
      rw [hfl] at hq
      dsimp only at hq
      by_cases hc : fl.2 = 0 ∧ fl.1 = 0
      · rw [if_pos hc] at hq
        cases hru : readUUID fb with
        | error e => rw [hru] at hq; cases hq
        | ok u =>
          rw [hru] at hq
          dsimp only [pure, Except.pure] at hq
          cases hq
          exact Or.inr ⟨hl, ⟨fl, rfl, hc.2, hc.1⟩, u, rfl, rfl⟩
      · rw [if_neg hc] at hq
        dsimp only [pure, Except.pure] at hq
        cases hq
        exact Or.inl rfl
  · rw [if_neg hl] at hq
    dsimp only [pure, Except.pure] at hq
    cases hq
    exact Or.inl rfl

theorem interpret_strings {ver : SMBIOSVersion} {h : Header} {fb : List Byte}
    {ss ss2 : List (List Byte)} {si : SystemInfo}
    (hi : interpret ver h fb ss = .ok (ss2, si)) :
    ss2 = ss ∨ (h.type = 1 ∧ 8 < h.length ∧
      (∃ fl, uuidFlagsLoop fb 16 0 1 1 = .ok fl ∧ fl.1 = 0 ∧ fl.2 = 0) ∧
      ∃ u, readUUID fb = .ok u ∧ ss2 = ss ++ [uuidRenderBytes u]) := by
  unfold interpret at hi
  by_cases h1 : h.type = 1
  · rw [if_pos h1] at hi
    unfold interpType1 at hi
    simp only [bind, Except.bind] at hi
    cases hcg : castGuard fb with
    | error e => rw [hcg] at hi; cases hi
    | ok u0 =>
      rw [hcg] at hi
      dsimp only at hi
      cases hup : type1UUID h fb ss with
      | error e => rw [hup] at hi; cases hi
      | ok rsi =>
        rw [hup] at hi
        dsimp only at hi
        cases hts : type1Strings fb rsi.1 rsi.2 with
        | error e => rw [hts] at hi; cases hi
        | ok si2 =>
          rw [hts] at hi
          dsimp only [pure, Except.pure] at hi
          cases hi
          rcases type1UUID_strings hup with hA | hB
          · exact Or.inl hA
          · exact Or.inr ⟨h1, hB.1, hB.2.1, hB.2.2⟩
  · rw [if_neg h1] at hi
    left
    split at hi
    · exact mapPair_ok hi
    · split at hi
      · exact mapPair_ok hi
      · split at hi
        · exact mapPair_ok hi
        · split at hi
          · exact mapPair_ok hi
          · split at hi
            · exact mapPair_ok hi
            · cases hi; rfl

/-- Claim C9 (amended): after a successful `next`, the structure string
vector equals the framed string set, except that a type-1 structure with
header length above 8 whose UUID scan clears both all-zero and all-0xFF
flags carries the rendered UUID appended as one extra final entry. -/
theorem c9_strings_amended (ver : SMBIOSVersion) (s : List Byte) (st : Structure)
    (rest : List Byte) (h : next ver s = .ok (st, rest)) :
    ∃ hd s1 fb s2 ss s3,
      parseHeader s = .ok (hd, s1) ∧ parseFormatted hd.length s1 = .ok (fb, s2) ∧
      parseStrings s2 = .ok (ss, s3) ∧ st.header = hd ∧ st.formatted = fb ∧ rest = s3 ∧
      (st.strings = ss ∨
        (hd.type = 1 ∧ 8 < hd.length ∧
          (∃ fl, uuidFlagsLoop fb 16 0 1 1 = .ok fl ∧ fl.1 = 0 ∧ fl.2 = 0) ∧
          ∃ u, readUUID fb = .ok u ∧ st.strings = ss ++ [uuidRenderBytes u])) := by
  obtain ⟨hd, s1, fb, s2, ss, s3, ss2, si, h1, h2, h3, h4, h5, h6⟩ := next_ok h
  subst h5
  refine ⟨hd, s1, fb, s2, ss, s3, h1, h2, h3, rfl, rfl, h6, ?_⟩
  exact interpret_strings h4

/-- Witness for C9 at a concrete one-structure stream. -/
theorem c9_witness :
    ∃ hd s1 fb s2 ss s3,
      parseHeader [127, 4, 1, 0, 0, 0] = .ok (hd, s1) ∧
      parseFormatted hd.length s1 = .ok (fb, s2) ∧
      parseStrings s2 = .ok (ss, s3) ∧
      ({ header := { type := 127, length := 4, handle := 1 }, formatted := [],
         strings := [], systemInfo := {} } : Structure).header = hd ∧
      ({ header := { type := 127, length := 4, handle := 1 }, formatted := [],
         strings := [], systemInfo := {} } : Structure).formatted = fb ∧
      ([] : List Byte) = s3 ∧
      (({ header := { type := 127, length := 4, handle := 1 }, formatted := [],
          strings := [], systemInfo := {} } : Structure).strings = ss ∨
        (hd.type = 1 ∧ 8 < hd.length ∧
          (∃ fl, uuidFlagsLoop fb 16 0 1 1 = .ok fl ∧ fl.1 = 0 ∧ fl.2 = 0) ∧
          ∃ u, readUUID fb = .ok u ∧
            ({ header := { type := 127, length := 4, handle := 1 }, formatted := [],
               strings := [], systemInfo := {} } : Structure).strings
              = ss ++ [uuidRenderBytes u])) :=
  c9_strings_amended { major := 2, minor := 6 } [127, 4, 1, 0, 0, 0]
    { header := { type := 127, length := 4, handle := 1 }, formatted := [],
      strings := [], systemInfo := {} } [] (by decide)

end SMBIOS
